import Mathlib

/-!
# KubeArmor AppArmor enforcer: profile lifecycle

A shallow embedding of `KubeArmor/enforcer/appArmorEnforcer.go`.

Modelling decisions
* Go strings are Lean strings; substring search and replacement work on the
  character lists.  The marker `KubeArmor` and the placeholder
  `apparmor-default` are ASCII, so on well-formed UTF-8 text the byte-level
  search of Go finds them at the same places.
* The directory `/etc/apparmor.d` is a finite map from entry name to `Node`
  (a sub-directory or a regular file with its content).  The path of a profile
  is `"/etc/apparmor.d/" + name`; the model keys the map by `name`.  Path
  resolution inside a name (`.`, `..`, `/`) is not modelled.
* `os.Stat` succeeds exactly when the entry exists.
* The kernel policy store is a finite map from profile path to the text that
  was loaded from it.
* Every other file operation and every run of `apparmor_parser` takes its
  outcome from an `Env`, by kind of call and profile name; a successful
  operation has its effect on disk or kernel, a failed one has none (a failed
  `WriteString` leaves the file as `os.Create` left it).  These calls are
  recorded, with their outcome, in `World.trace`.
* `GenerateAppArmorProfile`, `kl.ContainsElement`, the command helpers of
  package `common` and the types of package `types` are not among the
  sources: the first is a parameter, the others are modelled from the
  specification.
* The registry `map[string]int` is an association list looked up by first
  match; reference counts are Go `int` values on a 64-bit platform: `++` and
  `--` wrap around (`wrapInt`).
* Logging (`kg.Printf`, `kg.Err`, `kg.Errf`) and the mutex are not modelled:
  calls are executed one after the other.
-/

namespace KubeArmor

/-! ## Finite maps as association lists -/

/-- Value bound to key `k`, the first match. -/
def lookup {β : Type} (k : String) : List (String × β) → Option β
  | [] => none
  | (k', v) :: m => if k' = k then some v else lookup k m

/-- Go `m[k] = v`: update the binding of `k` in place, or add one. -/
def store {β : Type} (k : String) (v : β) : List (String × β) → List (String × β)
  | [] => [(k, v)]
  | (k', v') :: m => if k' = k then (k, v) :: m else (k', v') :: store k v m

/-- Go `delete(m, k)`: drop every binding of `k`. -/
def erase {β : Type} (k : String) : List (String × β) → List (String × β)
  | [] => []
  | (k', v') :: m => if k' = k then erase k m else (k', v') :: erase k m

/-- The bindings of a map, one per key (the first one), in list order. -/
def entries {β : Type} : List (String × β) → List (String × β)
  | [] => []
  | (k, v) :: m => (k, v) :: (entries m).filter (fun e => decide (e.1 ≠ k))

/-! ## Strings -/

/-- Go `strings.HasPrefix` on character lists. -/
def hasPrefixChars : List Char → List Char → Bool
  | _, [] => true
  | [], _ :: _ => false
  | c :: cs, d :: ds => c == d && hasPrefixChars cs ds

/-- Go `strings.Contains` on character lists: `sub` starts at some position. -/
def containsChars : List Char → List Char → Bool
  | [], sub => hasPrefixChars [] sub
  | c :: cs, sub => hasPrefixChars (c :: cs) sub || containsChars cs sub

/-- Go `strings.Contains(s, substr)`. -/
def stringsContains (s substr : String) : Bool :=
  containsChars s.data substr.data

/-- Replacement for a non-empty `old`: scan left to right; at a position where
`old` starts (and the limit allows) emit `new` and skip the rest of `old`,
otherwise keep the character.  `lim = none` is "no limit". -/
def replaceChars (old new : List Char) : Option Nat → Nat → List Char → List Char
  | _, _, [] => []
  | lim, skip + 1, _ :: cs => replaceChars old new lim skip cs
  | lim, 0, c :: cs =>
    if lim ≠ some 0 ∧ hasPrefixChars (c :: cs) old = true then
      new ++ replaceChars old new (lim.map (fun n => n - 1)) (old.length - 1) cs
    else
      c :: replaceChars old new lim 0 cs

/-- Replacement for an empty `old`: `new` goes before the first character and
after each character, as many times as the limit allows. -/
def insertChars (new : List Char) : Option Nat → List Char → List Char
  | some 0, s => s
  | _, [] => new
  | lim, c :: cs => new ++ c :: insertChars new (lim.map (fun n => n - 1)) cs

/-- Go `strings.Replace(s, old, new, n)`: the first `n` non-overlapping
occurrences of `old` are replaced by `new`, all of them when `n < 0`. -/
def stringsReplace (s old new : String) (n : Int) : String :=
  if old = new ∨ n = 0 then s
  else
    let lim : Option Nat := if n < 0 then none else some n.toNat
    if old.data = [] then ⟨insertChars new.data lim s.data⟩
    else ⟨replaceChars old.data new.data lim 0 s.data⟩

/-! ## The world outside the enforcer -/

/-- An entry of `/etc/apparmor.d`. -/
inductive Node where
  | dir : Node
  | file (content : String) : Node
deriving DecidableEq

/-- State changing calls made by the enforcer, with their outcome. -/
inductive Event where
  | mount : Event
  | create (name : String) (ok : Bool) : Event
  | write (name : String) (text : String) (ok : Bool) : Event
  | sync (name : String) (ok : Bool) : Event
  | remove (name : String) (ok : Bool) : Event
  | reload (name : String) (ok : Bool) : Event
  | unload (name : String) (ok : Bool) : Event
deriving DecidableEq

/-- Disk, kernel policy store and the record of calls. -/
structure World where
  files : List (String × Node)
  kernel : List (String × String)
  trace : List Event
deriving DecidableEq

/-- Modelled from the spec: the collaborators of section 6 that are not among the sources
(`kl.IsK8sLocal`, `kl.GetCommandOutputWithErr` running the loader, the file system) answer
through this record: the outcome of each kind of call, per profile name. -/
structure Env where
  isK8sLocal : Bool
  readDirOk : Bool
  readFileOk : String → Bool
  createOk : String → Bool
  writeOk : String → Bool
  syncOk : String → Bool
  removeOk : String → Bool
  reloadOk : String → Bool
  unloadOk : String → Bool

/-- The call `os.Stat("/etc/apparmor.d/" + name)` returns no error. -/
def osStat (w : World) (name : String) : Bool :=
  (lookup name w.files).isSome

/-- The call `ioutil.ReadFile("/etc/apparmor.d/" + name)`: the content of a regular file. -/
def ioutilReadFile (env : Env) (w : World) (name : String) : Option String :=
  match lookup name w.files with
  | some (Node.file content) => if env.readFileOk name then some content else none
  | _ => none

/-- The call `os.Create("/etc/apparmor.d/" + name)`: the file exists and is empty. -/
def osCreate (env : Env) (name : String) (w : World) : Bool × World :=
  if env.createOk name then
    (true, { w with files := store name (Node.file "") w.files,
                    trace := w.trace ++ [Event.create name true] })
  else
    (false, { w with trace := w.trace ++ [Event.create name false] })

/-- The call `WriteString(text)` on the file just created. -/
def fileWriteString (env : Env) (name text : String) (w : World) : Bool × World :=
  if env.writeOk name then
    (true, { w with files := store name (Node.file text) w.files,
                    trace := w.trace ++ [Event.write name text true] })
  else
    (false, { w with trace := w.trace ++ [Event.write name text false] })

/-- The call `Sync()` on the file just written. -/
def fileSync (env : Env) (name : String) (w : World) : Bool × World :=
  (env.syncOk name, { w with trace := w.trace ++ [Event.sync name (env.syncOk name)] })

/-- The call `os.Remove("/etc/apparmor.d/" + name)`. -/
def osRemove (env : Env) (name : String) (w : World) : Bool × World :=
  if env.removeOk name then
    (true, { w with files := erase name w.files,
                    trace := w.trace ++ [Event.remove name true] })
  else
    (false, { w with trace := w.trace ++ [Event.remove name false] })

/-- Modelled from the spec: `kl.GetCommandOutputWithErr("apparmor_parser", ["-r", "-W", path])`,
the loader in "reload + validate" mode: on success the kernel enforces the text of the file, on
failure it keeps what it had. -/
def apparmorParserReload (env : Env) (name : String) (w : World) : Bool × World :=
  if env.reloadOk name then
    (true, { w with
      kernel := (match lookup name w.files with
                 | some (Node.file content) => store name content w.kernel
                 | _ => w.kernel),
      trace := w.trace ++ [Event.reload name true] })
  else
    (false, { w with trace := w.trace ++ [Event.reload name false] })

/-- Modelled from the spec: `kl.GetCommandOutputWithErr("apparmor_parser", ["-R", path])`, the
loader in "unload" mode: on success the profile is no longer in the kernel. -/
def apparmorParserRemove (env : Env) (name : String) (w : World) : Bool × World :=
  if env.unloadOk name then
    (true, { w with kernel := erase name w.kernel,
                    trace := w.trace ++ [Event.unload name true] })
  else
    (false, { w with trace := w.trace ++ [Event.unload name false] })

/-! ## The enforcer -/

/-- Go `int` arithmetic on a 64-bit platform: the two's complement value of a result, in the
range from `-9223372036854775808` to `9223372036854775807`. -/
def wrapInt (x : Int) : Int :=
  (x + 9223372036854775808) % 18446744073709551616 - 9223372036854775808

/-- The enforcer: the registry of profile names with their reference counts. -/
structure AppArmorEnforcer where
  AppArmorProfiles : List (String × Int)
deriving DecidableEq

/-- The text `apparmorDefault` of `RegisterAppArmorProfile`. -/
def apparmorDefault : String :=
  "## == Managed by KubeArmor == ##\n" ++
  "\n" ++
  "#include <tunables/global>\n" ++
  "\n" ++
  "profile apparmor-default flags=(attach_disconnected,mediate_deleted) \x7b\n" ++
  "  ## == PRE START == ##\n" ++
  "  #include <abstractions/base>\n" ++
  "  umount,\n" ++
  "  file,\n" ++
  "  network,\n" ++
  "  capability,\n" ++
  "  ## == PRE END == ##\n" ++
  "\n" ++
  "  ## == POLICY START == ##\n" ++
  "  ## == POLICY END == ##\n" ++
  "\n" ++
  "  ## == POST START == ##\n" ++
  "  deny @\x7bPROC\x7d/\x7b*,**^[0-9*],sys/kernel/shm*\x7d wkx,\n" ++
  "  deny @\x7bPROC\x7d/sysrq-trigger rwklx,\n" ++
  "  deny @\x7bPROC\x7d/mem rwklx,\n" ++
  "  deny @\x7bPROC\x7d/kmem rwklx,\n" ++
  "  deny @\x7bPROC\x7d/kcore rwklx,\n" ++
  "\n" ++
  "  deny mount,\n" ++
  "\n" ++
  "  deny /sys/[^f]*/** wklx,\n" ++
  "  deny /sys/f[^s]*/** wklx,\n" ++
  "  deny /sys/fs/[^c]*/** wklx,\n" ++
  "  deny /sys/fs/c[^g]*/** wklx,\n" ++
  "  deny /sys/fs/cg[^r]*/** wklx,\n" ++
  "  deny /sys/firmware/efi/efivars/** rwklx,\n" ++
  "  deny /sys/kernel/security/** rwklx,\n" ++
  "  ## == POST END == ##\n" ++
  "\x7d\n"

/-- The text `newProfile` written for a name that has no file yet (line 138). -/
def newProfile (profileName : String) : String :=
  stringsReplace apparmorDefault "apparmor-default" profileName (-1)

/-- Lines 153-166 of `RegisterAppArmorProfile`: load the profile, then count it. -/
def registerLoad (env : Env) (profileName : String) (ae : AppArmorEnforcer) (w : World) :
    Bool × AppArmorEnforcer × World :=
  match apparmorParserReload env profileName w with
  | (true, w1) =>
    match lookup profileName ae.AppArmorProfiles with
    | none => (true, { AppArmorProfiles := store profileName 1 ae.AppArmorProfiles }, w1)
    | some refCount =>
      (true, { AppArmorProfiles := store profileName (wrapInt (refCount + 1)) ae.AppArmorProfiles }, w1)
  | (false, w1) => (false, ae, w1)

/-- The method `RegisterAppArmorProfile`. -/
def RegisterAppArmorProfile (env : Env) (profileName : String) (ae : AppArmorEnforcer)
    (w : World) : Bool × AppArmorEnforcer × World :=
  if osStat w profileName then
    match ioutilReadFile env w profileName with
    | none => (false, ae, w)
    | some content =>
      if !stringsContains content "KubeArmor" then (false, ae, w)
      else registerLoad env profileName ae w
  else
    match osCreate env profileName w with
    | (false, w1) => (false, ae, w1)
    | (true, w1) =>
      match fileWriteString env profileName (newProfile profileName) w1 with
      | (false, w2) => (false, ae, w2)
      | (true, w2) => registerLoad env profileName ae w2

/-- Lines 187-210 of `UnregisterAppArmorProfile`: count down, or unload and delete. -/
def unregisterCount (env : Env) (profileName : String) (ae : AppArmorEnforcer) (w : World) :
    Bool × AppArmorEnforcer × World :=
  match lookup profileName ae.AppArmorProfiles with
  | some referenceCount =>
    if referenceCount > 1 then
      (true, { AppArmorProfiles := store profileName (wrapInt (referenceCount - 1)) ae.AppArmorProfiles }, w)
    else
      match apparmorParserRemove env profileName w with
      | (false, w1) => (false, ae, w1)
      | (true, w1) =>
        match osRemove env profileName w1 with
        | (false, w2) => (false, ae, w2)
        | (true, w2) => (true, { AppArmorProfiles := erase profileName ae.AppArmorProfiles }, w2)
  | none => (false, ae, w)

/-- The method `UnregisterAppArmorProfile`. -/
def UnregisterAppArmorProfile (env : Env) (profileName : String) (ae : AppArmorEnforcer)
    (w : World) : Bool × AppArmorEnforcer × World :=
  if osStat w profileName then
    match ioutilReadFile env w profileName with
    | none => (false, ae, w)
    | some content =>
      if !stringsContains content "KubeArmor" then (false, ae, w)
      else unregisterCount env profileName ae w
  else
    unregisterCount env profileName ae w

/-- The method `DestroyAppArmorEnforcer`: one `UnregisterAppArmorProfile` per registry key. -/
def DestroyAppArmorEnforcer (env : Env) (ae : AppArmorEnforcer) (w : World) :
    AppArmorEnforcer × World :=
  ((entries ae.AppArmorProfiles).map Prod.fst).foldl
    (fun st profileName => (UnregisterAppArmorProfile env profileName st.1 st.2).2) (ae, w)

/-- The loop of `NewAppArmorEnforcer` over the directory listing; `false` is `return nil`. -/
def sweepLoop (env : Env) : List (String × Node) → World → Bool × World
  | [], w => (true, w)
  | (_, Node.dir) :: rest, w => sweepLoop env rest w
  | (fileName, Node.file _) :: rest, w =>
    match ioutilReadFile env w fileName with
    | none => (false, w)
    | some str =>
      if stringsContains str "KubeArmor" then
        match apparmorParserRemove env fileName w with
        | (false, w1) => (false, w1)
        | (true, w1) =>
          match osRemove env fileName w1 with
          | (false, w2) => (false, w2)
          | (true, w2) => sweepLoop env rest w2
      else sweepLoop env rest w

/-- The function `NewAppArmorEnforcer`; `none` is the `nil` result. -/
def NewAppArmorEnforcer (env : Env) (w : World) : Option AppArmorEnforcer × World :=
  let w0 : World := if !env.isK8sLocal then { w with trace := w.trace ++ [Event.mount] } else w
  if !env.readDirOk then (none, w0)
  else
    match sweepLoop env (entries w0.files) w0 with
    | (false, w1) => (none, w1)
    | (true, w1) => (some { AppArmorProfiles := [] }, w1)

/-! ## Policy update -/

/-- Modelled from the spec: `tp.ContainerGroup` of package `types` is not among the sources; it
has a namespace name, a group name, the list of containers, the per-container profile name and
the list of security policies.  `Policy` stands for `tp.SecurityPolicy`. -/
structure ContainerGroup (Policy : Type) where
  NamespaceName : String
  ContainerGroupName : String
  Containers : List String
  AppArmorProfiles : List (String × String)
  SecurityPolicies : List Policy

/-- Result of `GenerateAppArmorProfile`: rule count, text (or diagnostic), success flag. -/
abbrev Generated := Int × String × Bool

/-- The function `UpdateAppArmorProfile`; `gen` is `GenerateAppArmorProfile`, which is not among the
sources and may read the disk. -/
def UpdateAppArmorProfile {Policy : Type} (env : Env)
    (gen : World → String → List Policy → Generated)
    (_conGroup : ContainerGroup Policy) (appArmorProfile : String)
    (securityPolicies : List Policy) (w : World) : World :=
  match gen w appArmorProfile securityPolicies with
  | (_, text, true) =>
    match osCreate env appArmorProfile w with
    | (false, w1) => w1
    | (true, w1) =>
      match fileWriteString env appArmorProfile text w1 with
      | (false, w2) => w2
      | (true, w2) =>
        match fileSync env appArmorProfile w2 with
        | (false, w3) => w3
        | (true, w3) => (apparmorParserReload env appArmorProfile w3).2
  | (_, _, false) => w

/-- Modelled from the spec: `kl.ContainsElement` of package `common` is not among the sources; it
is membership of the element in the slice, which is what makes the derived profile names
distinct and keeps the sentinel names out. -/
def ContainsElement (slice : List String) (element : String) : Bool :=
  slice.any (fun x => decide (x = element))

/-- Go map read `conGroup.AppArmorProfiles[containerName]`: the empty string for a missing key. -/
def profileOf {Policy : Type} (conGroup : ContainerGroup Policy) (containerName : String) :
    String :=
  (lookup containerName conGroup.AppArmorProfiles).getD ""

/-- First loop of `UpdateSecurityPolicies` (lines 251-263): the names to update. -/
def selectProfiles {Policy : Type} (conGroup : ContainerGroup Policy) : List String :=
  conGroup.Containers.foldl
    (fun appArmorProfiles containerName =>
      if ContainsElement ["docker-default", "unconfined"] (profileOf conGroup containerName) then
        appArmorProfiles
      else if profileOf conGroup containerName = "" then appArmorProfiles
      else if !ContainsElement appArmorProfiles (profileOf conGroup containerName) then
        appArmorProfiles ++ [profileOf conGroup containerName]
      else appArmorProfiles)
    []

/-- The method `UpdateSecurityPolicies` with the callee of its second loop as a parameter. -/
def UpdateSecurityPoliciesWith {Policy σ : Type}
    (update : ContainerGroup Policy → String → List Policy → σ → σ)
    (conGroup : ContainerGroup Policy) (s : σ) : σ :=
  (selectProfiles conGroup).foldl
    (fun st appArmorProfile => update conGroup appArmorProfile conGroup.SecurityPolicies st) s

/-- The method `UpdateSecurityPolicies`. -/
def UpdateSecurityPolicies {Policy : Type} (env : Env)
    (gen : World → String → List Policy → Generated)
    (conGroup : ContainerGroup Policy) (w : World) : World :=
  UpdateSecurityPoliciesWith (UpdateAppArmorProfile env gen) conGroup w

/-! ## Vocabulary of the statements -/

/-- The template up to the placeholder. -/
def templateHead : String :=
  "## == Managed by KubeArmor == ##\n" ++
  "\n" ++
  "#include <tunables/global>\n" ++
  "\n" ++
  "profile "

/-- The template after the placeholder. -/
def templateTail : String :=
  " flags=(attach_disconnected,mediate_deleted) \x7b\n" ++
  "  ## == PRE START == ##\n" ++
  "  #include <abstractions/base>\n" ++
  "  umount,\n" ++
  "  file,\n" ++
  "  network,\n" ++
  "  capability,\n" ++
  "  ## == PRE END == ##\n" ++
  "\n" ++
  "  ## == POLICY START == ##\n" ++
  "  ## == POLICY END == ##\n" ++
  "\n" ++
  "  ## == POST START == ##\n" ++
  "  deny @\x7bPROC\x7d/\x7b*,**^[0-9*],sys/kernel/shm*\x7d wkx,\n" ++
  "  deny @\x7bPROC\x7d/sysrq-trigger rwklx,\n" ++
  "  deny @\x7bPROC\x7d/mem rwklx,\n" ++
  "  deny @\x7bPROC\x7d/kmem rwklx,\n" ++
  "  deny @\x7bPROC\x7d/kcore rwklx,\n" ++
  "\n" ++
  "  deny mount,\n" ++
  "\n" ++
  "  deny /sys/[^f]*/** wklx,\n" ++
  "  deny /sys/f[^s]*/** wklx,\n" ++
  "  deny /sys/fs/[^c]*/** wklx,\n" ++
  "  deny /sys/fs/c[^g]*/** wklx,\n" ++
  "  deny /sys/fs/cg[^r]*/** wklx,\n" ++
  "  deny /sys/firmware/efi/efivars/** rwklx,\n" ++
  "  deny /sys/kernel/security/** rwklx,\n" ++
  "  ## == POST END == ##\n" ++
  "\x7d\n"

/-- A list without its repetitions, each element at its first occurrence. -/
def firstOccurrences : List String → List String
  | [] => []
  | x :: xs => x :: (firstOccurrences xs).filter (fun y => decide (y ≠ x))

/-- The names that stand for "no profile of its own": the host default, unconfined, none. -/
def isSentinel (x : String) : Bool :=
  decide (x = "docker-default") || decide (x = "unconfined") || decide (x = "")

/-- The profile names assigned to the containers of the group, read off the map
`conGroup.AppArmorProfiles` itself: each container of the list that has a binding in the map
gives the name bound to it, unless that name is a sentinel; a container without binding gives
nothing.  Each name is kept once, in order of first occurrence in the container list. -/
def assignedProfiles {Policy : Type} (conGroup : ContainerGroup Policy) : List String :=
  firstOccurrences
    (conGroup.Containers.filterMap (fun containerName =>
      match List.lookup containerName conGroup.AppArmorProfiles with
      | some x => if isSentinel x then none else some x
      | none => none))

/-- A call on one profile name. -/
inductive Call where
  | register : Call
  | unregister : Call
deriving DecidableEq

/-- Run one call for profile `p`. -/
def Call.run (env : Env) (p : String) (c : Call) (st : AppArmorEnforcer × World) :
    Bool × AppArmorEnforcer × World :=
  match c with
  | Call.register => RegisterAppArmorProfile env p st.1 st.2
  | Call.unregister => UnregisterAppArmorProfile env p st.1 st.2

/-- Run the calls one after the other, dropping the results. -/
def runCalls (env : Env) (p : String) (calls : List Call) (st : AppArmorEnforcer × World) :
    AppArmorEnforcer × World :=
  calls.foldl (fun s c => (c.run env p s).2) st

/-- Number of start positions of `sub` in `s`. -/
def countStarts : List Char → List Char → Nat
  | [], sub => if hasPrefixChars [] sub then 1 else 0
  | c :: cs, sub => (if hasPrefixChars (c :: cs) sub then 1 else 0) + countStarts cs sub

/-- Number of Register calls minus number of Unregister calls. -/
def balance : List Call → Int
  | [] => 0
  | Call.register :: cs => balance cs + 1
  | Call.unregister :: cs => balance cs - 1

/-- Every loader call and file operation on `p` succeeds. -/
def AllSucceed (env : Env) (p : String) : Prop :=
  env.readFileOk p = true ∧ env.createOk p = true ∧ env.writeOk p = true ∧
  env.removeOk p = true ∧ env.reloadOk p = true ∧ env.unloadOk p = true

instance (env : Env) (p : String) : Decidable (AllSucceed env p) := by
  unfold AllSucceed
  infer_instance

/-- The state changing calls expected of a call that brings the balance to `d`. -/
def callEvents (p : String) (c : Call) (d : Int) : List Event :=
  match c with
  | Call.register =>
    if d = 1 then
      [Event.create p true, Event.write p (newProfile p) true, Event.reload p true]
    else [Event.reload p true]
  | Call.unregister =>
    if d = 0 then [Event.unload p true, Event.remove p true] else []

/-- What the registry, the disk and the kernel hold for `p` at balance `d`. -/
def Tracked (p : String) (d : Int) (st : AppArmorEnforcer × World) : Prop :=
  st.1.AppArmorProfiles = (if 1 ≤ d then [(p, d)] else []) ∧
  lookup p st.2.files = (if 1 ≤ d then some (Node.file (newProfile p)) else none) ∧
  (1 ≤ d → lookup p st.2.kernel = some (newProfile p))

instance (p : String) (d : Int) (st : AppArmorEnforcer × World) : Decidable (Tracked p d st) := by
  unfold Tracked
  infer_instance

/-- An environment in which every external call succeeds. -/
def envOk : Env :=
  { isK8sLocal := true, readDirOk := true, readFileOk := fun _ => true,
    createOk := fun _ => true, writeOk := fun _ => true, syncOk := fun _ => true,
    removeOk := fun _ => true, reloadOk := fun _ => true, unloadOk := fun _ => true }

/-- As `envOk`, but `apparmor_parser -r -W` fails. -/
def envLoaderFails : Env := { envOk with reloadOk := fun _ => false }

/-- Nothing on disk, nothing loaded. -/
def emptyWorld : World := { files := [], kernel := [], trace := [] }

/-- A directory with one profile that someone else wrote. -/
def foreignWorld : World :=
  { files := [("site-profile", Node.file "# written by the site administrator\n")],
    kernel := [("site-profile", "# written by the site administrator\n")],
    trace := [] }

/-- A directory as a crashed run leaves it: a profile of ours, a foreign one, a sub-directory. -/
def staleWorld : World :=
  { files := [("stale", Node.file "## == Managed by KubeArmor == ##\n"),
              ("site-profile", Node.file "# written by the site administrator\n"),
              ("cache", Node.dir)],
    kernel := [("stale", "## == Managed by KubeArmor == ##\n")],
    trace := [] }

/-- A group with one container that uses `site-profile`. -/
def sampleGroup : ContainerGroup Unit :=
  { NamespaceName := "default", ContainerGroupName := "web", Containers := ["c1"],
    AppArmorProfiles := [("c1", "site-profile")], SecurityPolicies := [()] }

/-- A group of six containers: two share `web`, one uses `db`, two have sentinel names, `c6` is
missing from the map, and the map has a binding for a container that is not in the group. -/
def mixedGroup : ContainerGroup Unit :=
  { NamespaceName := "default", ContainerGroupName := "shop",
    Containers := ["c1", "c2", "c3", "c4", "c5", "c6"],
    AppArmorProfiles := [("c1", "web"), ("c2", "docker-default"), ("c3", "db"), ("c4", "web"),
                         ("c5", "unconfined"), ("c9", "batch")],
    SecurityPolicies := [()] }

/-- A compiler that always succeeds with a one line profile. -/
def genAlways : World → String → List Unit → Generated :=
  fun _ _ _ => (1, "## == Managed by KubeArmor == ##\n", true)

/-- A compiler that always fails with a diagnostic. -/
def genNever : World → String → List Unit → Generated :=
  fun _ _ _ => (0, "unsupported rule", false)

/-! ## Map lemmas -/

theorem lookup_store {β : Type} (k k' : String) (v : β) (m : List (String × β)) :
    lookup k' (store k v m) = if k' = k then some v else lookup k' m := by
  induction m with
  | nil => simp [store, lookup, eq_comm]
  | cons e m ih =>
    obtain ⟨a, b⟩ := e
    by_cases h : a = k
    · subst h
      by_cases h2 : k' = a
      · simp [store, lookup, h2]
      · simp [store, lookup, h2, Ne.symm h2]
    · by_cases h2 : a = k'
      · subst h2
        simp [store, lookup, h]
      · simp [store, lookup, h, h2, ih]

theorem lookup_erase {β : Type} (k k' : String) (m : List (String × β)) :
    lookup k' (erase k m) = if k' = k then none else lookup k' m := by
  induction m with
  | nil => simp [erase, lookup]
  | cons e m ih =>
    obtain ⟨a, b⟩ := e
    by_cases h : a = k
    · subst h
      by_cases h2 : k' = a
      · subst h2
        simpa [erase, lookup] using ih
      · simp [erase, lookup, h2, Ne.symm h2, ih]
    · by_cases h2 : a = k'
      · subst h2
        simp [erase, lookup, h]
      · simp [erase, lookup, h, h2, ih]

theorem mem_entries_of_lookup {β : Type} (k : String) (v : β) (m : List (String × β))
    (h : lookup k m = some v) : (k, v) ∈ entries m := by
  induction m with
  | nil => simp [lookup] at h
  | cons e m ih =>
    obtain ⟨a, b⟩ := e
    by_cases hk : a = k
    · subst hk
      simp only [lookup, if_true, Option.some.injEq] at h
      subst h
      simp [entries]
    · simp only [lookup, hk, if_false] at h
      simp only [entries, List.mem_cons, List.mem_filter, decide_eq_true_eq]
      exact Or.inr ⟨ih h, fun hk2 => hk hk2.symm⟩

/-! ## String lemmas -/

theorem hasPrefixChars_append (a b sub : List Char) (h : hasPrefixChars a sub = true) :
    hasPrefixChars (a ++ b) sub = true := by
  induction sub generalizing a with
  | nil => cases a <;> simp [hasPrefixChars]
  | cons d ds ih =>
    cases a with
    | nil => simp [hasPrefixChars] at h
    | cons c cs =>
      simp only [hasPrefixChars, Bool.and_eq_true, List.cons_append] at h ⊢
      exact ⟨h.1, ih cs h.2⟩

theorem containsChars_append (a b sub : List Char) (h : containsChars a sub = true) :
    containsChars (a ++ b) sub = true := by
  induction a with
  | nil =>
    cases sub with
    | nil => cases b <;> simp [containsChars, hasPrefixChars]
    | cons d ds => simp [containsChars, hasPrefixChars] at h
  | cons c cs ih =>
    simp only [containsChars, Bool.or_eq_true, List.cons_append] at h ⊢
    rcases h with h | h
    · exact Or.inl (hasPrefixChars_append (c :: cs) b sub h)
    · exact Or.inr (ih h)

set_option maxRecDepth 1000000 in
theorem replaceChars_template (new : List Char) :
    replaceChars "apparmor-default".data new none 0 apparmorDefault.data =
      templateHead.data ++ new ++ templateTail.data := by
  rfl

set_option maxRecDepth 1000000 in
theorem apparmorDefault_split :
    apparmorDefault = templateHead ++ "apparmor-default" ++ templateTail := by
  decide

theorem newProfile_eq (profileName : String) :
    newProfile profileName = templateHead ++ profileName ++ templateTail := by
  unfold newProfile stringsReplace
  by_cases h : "apparmor-default" = profileName
  · subst h
    simp only [true_or, if_true]
    exact apparmorDefault_split
  · have hd : ("apparmor-default" : String).data ≠ [] := by decide
    simp only [h, false_or, show ¬ ((-1 : Int) = 0) by decide, if_false,
      show ((-1 : Int) < 0) by decide, if_true, hd]
    apply String.ext
    simp only [String.data_append]
    exact replaceChars_template profileName.data

theorem newProfile_contains_marker (profileName : String) :
    stringsContains (newProfile profileName) "KubeArmor" = true := by
  rw [newProfile_eq]
  unfold stringsContains
  simp only [String.data_append, List.append_assoc]
  exact containsChars_append _ _ _ (by decide)

/-! ## Lemmas on the operations -/

theorem readFile_some (env : Env) (w : World) (name str : String)
    (h : ioutilReadFile env w name = some str) :
    lookup name w.files = some (Node.file str) := by
  unfold ioutilReadFile at h
  split at h
  · rename_i content hl
    split at h
    · rw [hl]; simp only [Option.some.injEq] at h; rw [h]
    · exact absurd h (by simp)
  · exact absurd h (by simp)

theorem registerLoad_failure (env : Env) (p : String) (ae : AppArmorEnforcer) (w : World)
    (h : env.reloadOk p = false) :
    registerLoad env p ae w = (false, ae, { w with trace := w.trace ++ [Event.reload p false] }) := by
  simp [registerLoad, apparmorParserReload, h]

theorem registerLoad_success (env : Env) (p : String) (ae : AppArmorEnforcer) (w : World)
    (h : env.reloadOk p = true) :
    (registerLoad env p ae w).1 = true ∧
    (registerLoad env p ae w).2.1.AppArmorProfiles =
      store p
        (match lookup p ae.AppArmorProfiles with
         | none => 1
         | some refCount => wrapInt (refCount + 1)) ae.AppArmorProfiles ∧
    (registerLoad env p ae w).2.2.files = w.files ∧
    (registerLoad env p ae w).2.2.trace = w.trace ++ [Event.reload p true] := by
  unfold registerLoad apparmorParserReload
  rw [if_pos h]
  cases hl : lookup p ae.AppArmorProfiles <;> simp

/-- The shape of every `RegisterAppArmorProfile` result: an early `return false` that leaves the
registry alone, or the outcome of the load step after the file checks. -/
theorem register_shape (env : Env) (p : String) (ae : AppArmorEnforcer) (w : World) :
    ((RegisterAppArmorProfile env p ae w).1 = false ∧
      (RegisterAppArmorProfile env p ae w).2.1 = ae) ∨
    ∃ w1 t, w1.trace = w.trace ++ t ∧
      RegisterAppArmorProfile env p ae w = registerLoad env p ae w1 := by
  unfold RegisterAppArmorProfile
  split
  · split
    · exact Or.inl ⟨rfl, rfl⟩
    · split
      · exact Or.inl ⟨rfl, rfl⟩
      · exact Or.inr ⟨w, [], by simp, rfl⟩
  · unfold osCreate fileWriteString
    by_cases hc : env.createOk p = true
    · by_cases hw : env.writeOk p = true
      · simp only [hc, hw, if_true]
        exact Or.inr ⟨_, [Event.create p true, Event.write p (newProfile p) true], by simp, rfl⟩
      · simp [hc, hw]
    · simp [hc]

theorem balance_append (a b : List Call) : balance (a ++ b) = balance a + balance b := by
  induction a with
  | nil => simp [balance]
  | cons c cs ih => cases c <;> simp [balance, ih] <;> ring

theorem wrapInt_of_range (x : Int) (h1 : -9223372036854775808 ≤ x)
    (h2 : x ≤ 9223372036854775807) : wrapInt x = x := by
  unfold wrapInt
  omega

theorem register_step (env : Env) (p : String) (d : Int) (st : AppArmorEnforcer × World)
    (hOk : AllSucceed env p) (hd : 0 ≤ d) (hmax : d < 9223372036854775807)
    (hInv : Tracked p d st) :
    (RegisterAppArmorProfile env p st.1 st.2).1 = true ∧
    Tracked p (d + 1) (RegisterAppArmorProfile env p st.1 st.2).2 ∧
    (RegisterAppArmorProfile env p st.1 st.2).2.2.trace =
      st.2.trace ++ callEvents p Call.register (d + 1) := by
  obtain ⟨ae, w⟩ := st
  obtain ⟨hRead, hCreate, hWrite, _, hReload, _⟩ := hOk
  obtain ⟨hReg, hFile, hKer⟩ := hInv
  simp only at hReg hFile hKer
  have h1 : (1 : Int) ≤ d + 1 := by omega
  have hw : wrapInt (d + 1) = d + 1 := wrapInt_of_range _ (by omega) (by omega)
  by_cases h0 : 1 ≤ d
  · rw [if_pos h0] at hReg hFile
    have hne : ¬ (d + 1 = 1) := by omega
    simp [RegisterAppArmorProfile, osStat, ioutilReadFile, hFile, hRead,
      newProfile_contains_marker, registerLoad, apparmorParserReload, hReload, hReg, lookup,
      store, Tracked, h1, callEvents, hne, lookup_store, hw]
  · rw [if_neg h0] at hReg hFile
    have hd0 : d = 0 := by omega
    subst hd0
    simp [RegisterAppArmorProfile, osStat, hFile, osCreate, hCreate, fileWriteString, hWrite,
      registerLoad, apparmorParserReload, hReload, hReg, lookup, store, Tracked, callEvents,
      lookup_store]

theorem unregister_step (env : Env) (p : String) (d : Int) (st : AppArmorEnforcer × World)
    (hOk : AllSucceed env p) (hd : 1 ≤ d) (hmax : d ≤ 9223372036854775807)
    (hInv : Tracked p d st) :
    (UnregisterAppArmorProfile env p st.1 st.2).1 = true ∧
    Tracked p (d - 1) (UnregisterAppArmorProfile env p st.1 st.2).2 ∧
    lookup p (UnregisterAppArmorProfile env p st.1 st.2).2.2.kernel =
      (if 1 ≤ d - 1 then some (newProfile p) else none) ∧
    (UnregisterAppArmorProfile env p st.1 st.2).2.2.trace =
      st.2.trace ++ callEvents p Call.unregister (d - 1) := by
  obtain ⟨ae, w⟩ := st
  obtain ⟨hRead, _, _, hRemove, _, hUnload⟩ := hOk
  obtain ⟨hReg, hFile, hKer⟩ := hInv
  simp only at hReg hFile hKer
  rw [if_pos hd] at hReg hFile
  have hKer := hKer hd
  have hw : wrapInt (d - 1) = d - 1 := wrapInt_of_range _ (by omega) (by omega)
  by_cases h1 : 1 < d
  · have h2 : 1 ≤ d - 1 := by omega
    have hne : ¬ (d - 1 = 0) := by omega
    simp [UnregisterAppArmorProfile, osStat, ioutilReadFile, hFile, hRead,
      newProfile_contains_marker, unregisterCount, hReg, lookup, store, Tracked, h1, h2,
      callEvents, hne, hKer, hw]
  · have hd1 : d = 1 := by omega
    subst hd1
    simp [UnregisterAppArmorProfile, osStat, ioutilReadFile, hFile, hRead,
      newProfile_contains_marker, unregisterCount, hReg, lookup, erase, Tracked,
      callEvents, apparmorParserRemove, hUnload, osRemove, hRemove, lookup_erase]

/-- At the largest `int` the count of a further Register wraps to the smallest one; the
Unregister that follows finds a count that is not above 1, so it unloads and deletes. -/
theorem register_then_unregister_at_max (env : Env) (p : String)
    (st : AppArmorEnforcer × World) (hOk : AllSucceed env p)
    (hInv : Tracked p 9223372036854775807 st) :
    (RegisterAppArmorProfile env p st.1 st.2).1 = true ∧
    (RegisterAppArmorProfile env p st.1 st.2).2.1.AppArmorProfiles =
      [(p, -9223372036854775808)] ∧
    (UnregisterAppArmorProfile env p (RegisterAppArmorProfile env p st.1 st.2).2.1
      (RegisterAppArmorProfile env p st.1 st.2).2.2).1 = true ∧
    (UnregisterAppArmorProfile env p (RegisterAppArmorProfile env p st.1 st.2).2.1
      (RegisterAppArmorProfile env p st.1 st.2).2.2).2.1.AppArmorProfiles = [] ∧
    lookup p (UnregisterAppArmorProfile env p (RegisterAppArmorProfile env p st.1 st.2).2.1
      (RegisterAppArmorProfile env p st.1 st.2).2.2).2.2.files = none ∧
    (UnregisterAppArmorProfile env p (RegisterAppArmorProfile env p st.1 st.2).2.1
      (RegisterAppArmorProfile env p st.1 st.2).2.2).2.2.trace =
      st.2.trace ++ [Event.reload p true, Event.unload p true, Event.remove p true] := by
  obtain ⟨ae, w⟩ := st
  obtain ⟨hRead, _, _, hRemove, hReload, hUnload⟩ := hOk
  obtain ⟨hReg, hFile, _⟩ := hInv
  simp only at hReg hFile
  rw [if_pos (by decide)] at hReg hFile
  have hw : wrapInt 9223372036854775808 = -9223372036854775808 := by decide
  have hr : RegisterAppArmorProfile env p ae w =
      (true, { AppArmorProfiles := [(p, -9223372036854775808)] },
        { w with kernel := store p (newProfile p) w.kernel,
                 trace := w.trace ++ [Event.reload p true] }) := by
    simp [RegisterAppArmorProfile, osStat, ioutilReadFile, hFile, hRead,
      newProfile_contains_marker, registerLoad, apparmorParserReload, hReload, hReg, lookup,
      store, hw]
  rw [hr]
  simp [UnregisterAppArmorProfile, osStat, ioutilReadFile, hFile, hRead,
    newProfile_contains_marker, unregisterCount, lookup, erase, apparmorParserRemove, hUnload,
    osRemove, hRemove, lookup_erase]

theorem runCalls_snoc (env : Env) (p : String) (pre : List Call) (c : Call)
    (st : AppArmorEnforcer × World) :
    runCalls env p (pre ++ [c]) st = (c.run env p (runCalls env p pre st)).2 := by
  simp [runCalls, List.foldl_append]

theorem balance_snoc_register (pre : List Call) :
    balance (pre ++ [Call.register]) = balance pre + 1 := by
  simp [balance_append, balance]

theorem balance_snoc_unregister (pre : List Call) :
    balance (pre ++ [Call.unregister]) = balance pre - 1 := by
  simp [balance_append, balance]; ring

theorem tracked_after (env : Env) (p : String) (w0 : World) (hOk : AllSucceed env p)
    (hNoFile : lookup p w0.files = none) (pre : List Call)
    (hValid : ∀ q, q <+: pre → 0 ≤ balance q)
    (hBound : ∀ q, q <+: pre → balance q ≤ 9223372036854775807) :
    Tracked p (balance pre) (runCalls env p pre ({ AppArmorProfiles := [] }, w0)) := by
  induction pre using List.reverseRecOn with
  | nil => simp [Tracked, balance, runCalls, hNoFile]
  | append_singleton pre c ih =>
    have hpre : ∀ q, q <+: pre → 0 ≤ balance q :=
      fun q hq => hValid q (hq.trans (List.prefix_append pre [c]))
    have hpre2 : ∀ q, q <+: pre → balance q ≤ 9223372036854775807 :=
      fun q hq => hBound q (hq.trans (List.prefix_append pre [c]))
    have hInv := ih hpre hpre2
    have hd : 0 ≤ balance pre := hpre pre (List.prefix_refl pre)
    have hm : balance pre ≤ 9223372036854775807 := hpre2 pre (List.prefix_refl pre)
    have hc := hValid (pre ++ [c]) (List.prefix_refl _)
    have hb := hBound (pre ++ [c]) (List.prefix_refl _)
    rw [runCalls_snoc]
    cases c with
    | register =>
      rw [balance_snoc_register] at hb ⊢
      exact (register_step env p (balance pre) _ hOk hd (by omega) hInv).2.1
    | unregister =>
      rw [balance_snoc_unregister] at hc ⊢
      exact (unregister_step env p (balance pre) _ hOk (by omega) hm hInv).2.1

theorem balance_replicate_register (n : Nat) :
    balance (List.replicate n Call.register) = n := by
  induction n with
  | zero => simp [balance]
  | succ n ih => simp [List.replicate_succ, balance, ih]

theorem balance_nonneg_of_registers (q : List Call) (h : ∀ c, c ∈ q → c = Call.register) :
    0 ≤ balance q := by
  induction q with
  | nil => simp [balance]
  | cons c cs ih =>
    have hc : c = Call.register := h c (List.mem_cons_self _ _)
    subst hc
    have := ih (fun c hc => h c (List.mem_cons_of_mem _ hc))
    simp only [balance]
    omega

theorem tracked_replicate (env : Env) (p : String) (w0 : World) (hOk : AllSucceed env p)
    (hNoFile : lookup p w0.files = none) (n : Nat) (hn : (n : Int) ≤ 9223372036854775807) :
    Tracked p n
      (runCalls env p (List.replicate n Call.register) ({ AppArmorProfiles := [] }, w0)) := by
  induction n with
  | zero => simp [Tracked, runCalls, hNoFile]
  | succ n ih =>
    have hn2 : (n : Int) < 9223372036854775807 := by push_cast at hn; omega
    have hInv := ih (by omega)
    rw [List.replicate_succ', runCalls_snoc]
    have := (register_step env p n _ hOk (by omega) hn2 hInv).2.1
    simpa [Call.run] using this

/-- One more Register than the largest `int`, then one Unregister: the calls are a valid
sequence with balance `9223372036854775807`, and the last call empties the registry and
deletes the file. -/
theorem wrapped_run (env : Env) (p : String) (w0 : World) (hOk : AllSucceed env p)
    (hNoFile : lookup p w0.files = none) (n : Nat) (hn : (n : Int) = 9223372036854775808) :
    (∀ q, q <+: List.replicate n Call.register ++ [Call.unregister] → 0 ≤ balance q) ∧
    balance (List.replicate n Call.register ++ [Call.unregister]) = 9223372036854775807 ∧
    (Call.unregister.run env p
      (runCalls env p (List.replicate n Call.register) ({ AppArmorProfiles := [] }, w0))).1 =
      true ∧
    (Call.unregister.run env p
      (runCalls env p (List.replicate n Call.register)
        ({ AppArmorProfiles := [] }, w0))).2.1.AppArmorProfiles = [] ∧
    lookup p (Call.unregister.run env p
      (runCalls env p (List.replicate n Call.register)
        ({ AppArmorProfiles := [] }, w0))).2.2.files = none ∧
    ∃ t, (Call.unregister.run env p
      (runCalls env p (List.replicate n Call.register)
        ({ AppArmorProfiles := [] }, w0))).2.2.trace =
      t ++ [Event.unload p true, Event.remove p true] := by
  have hbal : balance (List.replicate n Call.register ++ [Call.unregister]) =
      9223372036854775807 := by
    rw [balance_snoc_unregister, balance_replicate_register, hn]
    rfl
  refine ⟨?_, hbal, ?_⟩
  · intro q hq
    rcases List.prefix_concat_iff.1 hq with h | h
    · rw [h, hbal]
      decide
    · exact balance_nonneg_of_registers q
        (fun c hc => List.eq_of_mem_replicate (h.subset hc))
  · cases n with
    | zero => exfalso; omega
    | succ m =>
      have hm : (m : Int) = 9223372036854775807 := by push_cast at hn; omega
      have hInv := tracked_replicate env p w0 hOk hNoFile m (by omega)
      rw [hm] at hInv
      obtain ⟨_, _, h3, h4, h5, h6⟩ := register_then_unregister_at_max env p _ hOk hInv
      rw [List.replicate_succ', runCalls_snoc]
      simp only [Call.run]
      refine ⟨h3, h4, h5, ?_⟩
      rw [h6]
      exact ⟨_, (List.append_assoc _ [Event.reload p true] _).symm⟩

/-- What a completed directory sweep has done. -/
theorem sweepLoop_spec (env : Env) (es : List (String × Node)) (w w' : World)
    (h : sweepLoop env es w = (true, w')) :
    (∃ t, w'.trace = w.trace ++ t) ∧
    (∀ name, lookup name w'.files = lookup name w.files ∨
      ∃ c, lookup name w.files = some (Node.file c) ∧ stringsContains c "KubeArmor" = true ∧
        lookup name w'.files = none ∧
        ∃ t1 t2 t3, w'.trace =
          w.trace ++ t1 ++ [Event.unload name true] ++ t2 ++ [Event.remove name true] ++ t3) ∧
    (∀ name x, (name, Node.file x) ∈ es → ∀ c, lookup name w'.files = some (Node.file c) →
      stringsContains c "KubeArmor" = false) := by
  induction es generalizing w with
  | nil =>
    simp only [sweepLoop, Prod.mk.injEq, true_and] at h
    subst h
    exact ⟨⟨[], by simp⟩, fun _ => Or.inl rfl, fun _ _ hm => absurd hm (by simp)⟩
  | cons e rest ih =>
    obtain ⟨n, node⟩ := e
    cases node with
    | dir =>
      simp only [sweepLoop] at h
      obtain ⟨h1, h2, h3⟩ := ih w h
      refine ⟨h1, h2, fun name x hm => ?_⟩
      simp only [List.mem_cons, Prod.mk.injEq] at hm
      rcases hm with ⟨_, hx⟩ | hm
      · exact absurd hx (by simp)
      · exact h3 name x hm
    | file x0 =>
      simp only [sweepLoop] at h
      cases hr : ioutilReadFile env w n with
      | none => rw [hr] at h; simp at h
      | some str =>
        rw [hr] at h
        simp only at h
        have hl := readFile_some env w n str hr
        by_cases hm : stringsContains str "KubeArmor" = true
        · rw [if_pos hm] at h
          unfold apparmorParserRemove osRemove at h
          by_cases hu : env.unloadOk n = true
          swap
          · simp [hu] at h
          by_cases hrm : env.removeOk n = true
          swap
          · simp [hu, hrm] at h
          simp only [hu, hrm, if_true] at h
          obtain ⟨⟨t, ht⟩, h2, h3⟩ := ih _ h
          simp only at ht h2
          have hgone : lookup n w'.files = none := by
            rcases h2 n with h2n | ⟨c, hc, _⟩
            · rw [h2n, lookup_erase]; simp
            · rw [lookup_erase] at hc; simp at hc
          refine ⟨⟨[Event.unload n true, Event.remove n true] ++ t, by simp [ht]⟩, ?_, ?_⟩
          · intro name
            by_cases hn : name = n
            · subst hn
              exact Or.inr ⟨str, hl, hm, hgone, [], [], t, by simp [ht]⟩
            · rcases h2 name with h2n | ⟨c, hc, hcm, hcg, t1, t2, t3, htr⟩
              · left
                rw [h2n, lookup_erase, if_neg hn]
              · right
                rw [lookup_erase, if_neg hn] at hc
                exact ⟨c, hc, hcm, hcg,
                  [Event.unload n true, Event.remove n true] ++ t1, t2, t3, by simp [htr]⟩
          · intro name x hmem c hc
            simp only [List.mem_cons, Prod.mk.injEq] at hmem
            rcases hmem with ⟨hn, _⟩ | hmem
            · subst hn
              rw [hgone] at hc
              exact absurd hc (by simp)
            · exact h3 name x hmem c hc
        · rw [if_neg hm] at h
          obtain ⟨h1, h2, h3⟩ := ih w h
          refine ⟨h1, h2, ?_⟩
          intro name x hmem c hc
          simp only [List.mem_cons, Prod.mk.injEq] at hmem
          rcases hmem with ⟨hn, _⟩ | hmem
          · subst hn
            rcases h2 name with h2n | ⟨c', hc', hcm, _⟩
            · rw [h2n, hl] at hc
              simp only [Option.some.injEq, Node.file.injEq] at hc
              subst hc
              simpa using hm
            · rw [hl] at hc'
              simp only [Option.some.injEq, Node.file.injEq] at hc'
              subst hc'
              exact absurd hcm hm
          · exact h3 name x hmem c hc

/-! ## Lemmas on the selection of profile names -/

theorem containsElement_iff (l : List String) (x : String) :
    ContainsElement l x = true ↔ x ∈ l := by
  unfold ContainsElement
  rw [List.any_eq_true]
  constructor
  · rintro ⟨y, hy, hxy⟩
    rw [decide_eq_true_eq] at hxy
    exact hxy ▸ hy
  · intro h
    exact ⟨x, h, by simp⟩

theorem mem_firstOccurrences (l : List String) (x : String) :
    x ∈ firstOccurrences l ↔ x ∈ l := by
  induction l with
  | nil => simp [firstOccurrences]
  | cons a l ih =>
    simp only [firstOccurrences, List.mem_cons, List.mem_filter, ih, decide_eq_true_eq]
    by_cases h : x = a <;> simp [h]

theorem nodup_firstOccurrences (l : List String) : (firstOccurrences l).Nodup := by
  induction l with
  | nil => simp [firstOccurrences]
  | cons a l ih =>
    simp only [firstOccurrences, List.nodup_cons, List.mem_filter, decide_eq_true_eq]
    exact ⟨fun h => h.2 rfl, ih.filter _⟩

/-- The first loop of `UpdateSecurityPolicies`, started with any list `acc`. -/
theorem select_fold (f : String → String) (cs : List String) (acc : List String) :
    cs.foldl
      (fun appArmorProfiles containerName =>
        if ContainsElement ["docker-default", "unconfined"] (f containerName) then
          appArmorProfiles
        else if f containerName = "" then appArmorProfiles
        else if !ContainsElement appArmorProfiles (f containerName) then
          appArmorProfiles ++ [f containerName]
        else appArmorProfiles) acc
    = acc ++ (firstOccurrences ((cs.map f).filter (fun x => !isSentinel x))).filter
        (fun x => decide (x ∉ acc)) := by
  induction cs generalizing acc with
  | nil => simp [firstOccurrences]
  | cons c cs ih =>
    simp only [List.foldl_cons, List.map_cons]
    by_cases hs : isSentinel (f c) = true
    · have h1 : (if ContainsElement ["docker-default", "unconfined"] (f c) = true then acc
          else if f c = "" then acc
          else if (!ContainsElement acc (f c)) = true then acc ++ [f c] else acc) = acc := by
        simp only [isSentinel, Bool.or_eq_true, decide_eq_true_eq] at hs
        rcases hs with (hs | hs) | hs
        · rw [if_pos ((containsElement_iff _ _).2 (by simp [hs]))]
        · rw [if_pos ((containsElement_iff _ _).2 (by simp [hs]))]
        · simp [hs]
      rw [h1, ih, List.filter_cons_of_neg (by simp [hs])]
    · have hs' : isSentinel (f c) = false := by simpa using hs
      have h0 : ContainsElement ["docker-default", "unconfined"] (f c) = false := by
        simp only [isSentinel, Bool.or_eq_false_iff, decide_eq_false_iff_not] at hs'
        rw [← Bool.not_eq_true, containsElement_iff]
        simp [hs'.1.1, hs'.1.2]
      have h00 : f c ≠ "" := by
        simp only [isSentinel, Bool.or_eq_false_iff, decide_eq_false_iff_not] at hs'
        exact hs'.2
      rw [List.filter_cons_of_pos (by simp [hs'])]
      simp only [h0, h00, if_false, Bool.false_eq_true, firstOccurrences]
      by_cases hm : f c ∈ acc
      · have hc : ContainsElement acc (f c) = true := (containsElement_iff _ _).2 hm
        simp only [hc, Bool.not_true, Bool.false_eq_true, if_false]
        rw [ih, List.filter_cons_of_neg (by simp [hm]), List.filter_filter]
        congr 1
        apply List.filter_congr
        intro x _
        by_cases hx : x ∈ acc
        · simp [hx]
        · have : x ≠ f c := fun h => hx (h ▸ hm)
          simp [hx, this]
      · have hc : ContainsElement acc (f c) = false := by
          rw [← Bool.not_eq_true, containsElement_iff]; exact hm
        simp only [hc, Bool.not_false, if_true]
        rw [ih, List.filter_cons_of_pos (by simp [hm]), List.filter_filter, List.append_assoc]
        congr 1
        simp only [List.singleton_append]
        congr 1
        apply List.filter_congr
        intro x _
        by_cases hx : x ∈ acc <;> by_cases hx2 : x = f c <;> simp [hx, hx2]

theorem lookup_eq_list_lookup {β : Type} (k : String) (m : List (String × β)) :
    lookup k m = List.lookup k m := by
  induction m with
  | nil => rfl
  | cons e m ih =>
    obtain ⟨a, b⟩ := e
    by_cases h : a = k
    · subst h
      simp [lookup]
    · have h2 : (k == a) = false := by
        rw [beq_eq_false_iff_ne]
        exact fun hk => h hk.symm
      simp [lookup, h, List.lookup_cons, h2, ih]

theorem list_lookup_iff_mem {β : Type} (m : List (String × β)) (k : String) (v : β)
    (hm : (m.map Prod.fst).Nodup) : List.lookup k m = some v ↔ (k, v) ∈ m := by
  induction m with
  | nil => simp
  | cons e m ih =>
    obtain ⟨a, b⟩ := e
    simp only [List.map_cons, List.nodup_cons, List.mem_map, not_exists, not_and] at hm
    by_cases h : k = a
    · subst h
      simp only [List.lookup_cons_self, Option.some.injEq, List.mem_cons, Prod.mk.injEq,
        true_and]
      constructor
      · exact fun hb => Or.inl hb.symm
      · rintro (hb | hb)
        · exact hb.symm
        · exact absurd rfl (hm.1 (k, v) hb)
    · have h2 : (k == a) = false := by
        rw [beq_eq_false_iff_ne]
        exact h
      simp only [List.lookup_cons, h2, ih hm.2, List.mem_cons, Prod.mk.injEq, h, false_and,
        false_or]

/-- Reading the map with the empty string for a missing key and then dropping the sentinels
keeps exactly the bound, non-sentinel names. -/
theorem assigned_names {Policy : Type} (conGroup : ContainerGroup Policy) (cs : List String) :
    (cs.map (profileOf conGroup)).filter (fun x => !isSentinel x) =
      cs.filterMap (fun containerName =>
        match List.lookup containerName conGroup.AppArmorProfiles with
        | some x => if isSentinel x then none else some x
        | none => none) := by
  induction cs with
  | nil => rfl
  | cons c cs ih =>
    have hp : profileOf conGroup c = (List.lookup c conGroup.AppArmorProfiles).getD "" := by
      unfold profileOf
      rw [lookup_eq_list_lookup]
    rw [List.map_cons, List.filterMap_cons, hp]
    cases hl : List.lookup c conGroup.AppArmorProfiles with
    | none =>
      have hs : isSentinel "" = true := by decide
      simp only [Option.getD_none]
      rw [List.filter_cons_of_neg (by simp [hs])]
      exact ih
    | some x =>
      simp only [Option.getD_some]
      by_cases hs : isSentinel x = true
      · rw [List.filter_cons_of_neg (by simp [hs])]
        simp only [hs, if_true]
        exact ih
      · rw [List.filter_cons_of_pos (by simpa using hs)]
        simp only [hs, if_false, Bool.false_eq_true]
        rw [ih]

theorem selectProfiles_eq {Policy : Type} (conGroup : ContainerGroup Policy) :
    selectProfiles conGroup = assignedProfiles conGroup := by
  unfold selectProfiles assignedProfiles
  rw [select_fold (profileOf conGroup) conGroup.Containers [], assigned_names]
  simp


theorem foldl_record {α β : Type} (g : α → β) (l : List α) (acc : List β) :
    l.foldl (fun calls a => calls ++ [g a]) acc = acc ++ l.map g := by
  induction l generalizing acc with
  | nil => simp
  | cons a l ih => simp [ih]

/-! ## The claims -/

/-- Claim C1, as amended: start from an empty registry and no file for `p`, let every loader
call and file operation on `p` succeed, and take any sequence of Register and Unregister calls
on `p` in which no prefix has more Unregister than Register calls and in which the difference
`d` (Register calls minus Unregister calls so far) never exceeds `9223372036854775807`, the
largest `int`.  Then each call of the sequence returns true; after it the registry is exactly
the entry `(p, d)` when `d ≥ 1` and empty when `d = 0`; the file of `p` and the kernel profile
exist exactly when `d ≥ 1`; and the call unloads the profile and removes the file exactly when
it is an Unregister that brings `d` to 0, an Unregister that leaves `d ≥ 1` making no external
call at all. -/
theorem refcount_lifecycle_bounded (env : Env) (p : String) (w0 : World)
    (calls pre : List Call) (c : Call) (hOk : AllSucceed env p)
    (hNoFile : lookup p w0.files = none)
    (hValid : ∀ q, q <+: calls → 0 ≤ balance q)
    (hBound : ∀ q, q <+: calls → balance q ≤ 9223372036854775807)
    (hPre : pre ++ [c] <+: calls) :
    (c.run env p (runCalls env p pre ({ AppArmorProfiles := [] }, w0))).1 = true ∧
    (c.run env p (runCalls env p pre ({ AppArmorProfiles := [] }, w0))).2.1.AppArmorProfiles =
      (if 1 ≤ balance (pre ++ [c]) then [(p, balance (pre ++ [c]))] else []) ∧
    lookup p (c.run env p (runCalls env p pre ({ AppArmorProfiles := [] }, w0))).2.2.files =
      (if 1 ≤ balance (pre ++ [c]) then some (Node.file (newProfile p)) else none) ∧
    lookup p (c.run env p (runCalls env p pre ({ AppArmorProfiles := [] }, w0))).2.2.kernel =
      (if 1 ≤ balance (pre ++ [c]) then some (newProfile p) else none) ∧
    (c.run env p (runCalls env p pre ({ AppArmorProfiles := [] }, w0))).2.2.trace =
      (runCalls env p pre ({ AppArmorProfiles := [] }, w0)).2.trace ++
        callEvents p c (balance (pre ++ [c])) := by
  have hsub : ∀ q, q <+: pre → q <+: calls :=
    fun q hq => (hq.trans (List.prefix_append pre [c])).trans hPre
  have hInv := tracked_after env p w0 hOk hNoFile pre
    (fun q hq => hValid q (hsub q hq)) (fun q hq => hBound q (hsub q hq))
  have hd : 0 ≤ balance pre := hValid pre (hsub pre (List.prefix_refl pre))
  have hm : balance pre ≤ 9223372036854775807 := hBound pre (hsub pre (List.prefix_refl pre))
  have hc := hValid (pre ++ [c]) hPre
  have hb := hBound (pre ++ [c]) hPre
  cases c with
  | register =>
    rw [balance_snoc_register] at hb ⊢
    obtain ⟨h1, h2, h3⟩ := register_step env p (balance pre) _ hOk hd (by omega) hInv
    have hpos : (1 : Int) ≤ balance pre + 1 := by omega
    obtain ⟨h21, h22, h23⟩ := h2
    refine ⟨h1, h21, h22, ?_, h3⟩
    rw [if_pos hpos]
    exact h23 hpos
  | unregister =>
    rw [balance_snoc_unregister] at hc ⊢
    obtain ⟨h1, h2, h3, h4⟩ :=
      unregister_step env p (balance pre) _ hOk (by omega) hm hInv
    exact ⟨h1, h2.1, h2.2.1, h3, h4⟩

/-- Witness for C1: Register, Register, Unregister, Unregister on `p1`; the last call empties
the registry. -/
theorem refcount_lifecycle_bounded_witness :
    AllSucceed envOk "p1" ∧ lookup "p1" emptyWorld.files = none ∧
    (∀ q, q <+: [Call.register, Call.register, Call.unregister, Call.unregister] →
      0 ≤ balance q) ∧
    (∀ q, q <+: [Call.register, Call.register, Call.unregister, Call.unregister] →
      balance q ≤ 9223372036854775807) ∧
    (Call.unregister.run envOk "p1"
      (runCalls envOk "p1" [Call.register, Call.register, Call.unregister]
        ({ AppArmorProfiles := [] }, emptyWorld))).2.1.AppArmorProfiles = [] :=
  have hValid : ∀ q, q <+: [Call.register, Call.register, Call.unregister, Call.unregister] →
      0 ≤ balance q :=
    fun q hq => (by decide : ∀ q ∈ List.inits
      [Call.register, Call.register, Call.unregister, Call.unregister], 0 ≤ balance q) q
        ((List.mem_inits _ _).2 hq)
  have hBound : ∀ q, q <+: [Call.register, Call.register, Call.unregister, Call.unregister] →
      balance q ≤ 9223372036854775807 :=
    fun q hq => (by decide : ∀ q ∈ List.inits
      [Call.register, Call.register, Call.unregister, Call.unregister],
        balance q ≤ 9223372036854775807) q ((List.mem_inits _ _).2 hq)
  ⟨by decide, rfl, hValid, hBound,
    (refcount_lifecycle_bounded envOk "p1" emptyWorld
      [Call.register, Call.register, Call.unregister, Call.unregister]
      [Call.register, Call.register, Call.unregister] Call.unregister
      (by decide) rfl hValid hBound (List.prefix_refl _)).2.1⟩

/-- Counterexample to C1 as stated: from an empty registry and an empty directory, with every
external call succeeding, make 9223372036854775808 Register calls on `p1` and then one
Unregister.  No prefix has more Unregister than Register calls and the difference after the
last call is `d = 9223372036854775807`, so the claim wants the registry to hold `p1` with that
count and the file to be present.  The count has wrapped to `-9223372036854775808` on the last
Register, the Unregister takes the branch for a count not above 1: it returns true, unloads
and removes the profile, and leaves the registry empty and no file for `p1`. -/
theorem refcount_wraps_at_max_int :
    AllSucceed envOk "p1" ∧ lookup "p1" emptyWorld.files = none ∧
    (∀ q, q <+: List.replicate 9223372036854775808 Call.register ++ [Call.unregister] →
      0 ≤ balance q) ∧
    balance (List.replicate 9223372036854775808 Call.register ++ [Call.unregister]) =
      9223372036854775807 ∧
    (Call.unregister.run envOk "p1"
      (runCalls envOk "p1" (List.replicate 9223372036854775808 Call.register)
        ({ AppArmorProfiles := [] }, emptyWorld))).1 = true ∧
    (Call.unregister.run envOk "p1"
      (runCalls envOk "p1" (List.replicate 9223372036854775808 Call.register)
        ({ AppArmorProfiles := [] }, emptyWorld))).2.1.AppArmorProfiles = [] ∧
    lookup "p1" (Call.unregister.run envOk "p1"
      (runCalls envOk "p1" (List.replicate 9223372036854775808 Call.register)
        ({ AppArmorProfiles := [] }, emptyWorld))).2.2.files = none ∧
    ∃ t, (Call.unregister.run envOk "p1"
      (runCalls envOk "p1" (List.replicate 9223372036854775808 Call.register)
        ({ AppArmorProfiles := [] }, emptyWorld))).2.2.trace =
      t ++ [Event.unload "p1" true, Event.remove "p1" true] :=
  ⟨by decide, rfl,
    wrapped_run envOk "p1" emptyWorld (by decide) rfl 9223372036854775808 (by decide)⟩

/-- Claim C2: when the file of `p` exists and its content lacks the marker `KubeArmor`, both
`RegisterAppArmorProfile(p)` and `UnregisterAppArmorProfile(p)` return false and leave the
registry, the disk, the kernel store and the record of external calls as they were. -/
theorem foreign_profile_refused (env : Env) (profileName content : String)
    (ae : AppArmorEnforcer) (w : World)
    (hFile : lookup profileName w.files = some (Node.file content))
    (hForeign : stringsContains content "KubeArmor" = false) :
    RegisterAppArmorProfile env profileName ae w = (false, ae, w) ∧
    UnregisterAppArmorProfile env profileName ae w = (false, ae, w) := by
  have hStat : osStat w profileName = true := by simp [osStat, hFile]
  constructor
  · unfold RegisterAppArmorProfile ioutilReadFile
    rw [hStat, hFile]
    by_cases hr : env.readFileOk profileName = true <;> simp [hr, hForeign]
  · unfold UnregisterAppArmorProfile ioutilReadFile
    rw [hStat, hFile]
    by_cases hr : env.readFileOk profileName = true <;> simp [hr, hForeign]

/-- Witness for C2: the administrator's `site-profile`. -/
theorem foreign_profile_refused_witness :
    lookup "site-profile" foreignWorld.files =
      some (Node.file "# written by the site administrator\n") ∧
    stringsContains "# written by the site administrator\n" "KubeArmor" = false ∧
    RegisterAppArmorProfile envOk "site-profile" { AppArmorProfiles := [] } foreignWorld =
      (false, { AppArmorProfiles := [] }, foreignWorld) ∧
    UnregisterAppArmorProfile envOk "site-profile" { AppArmorProfiles := [] } foreignWorld =
      (false, { AppArmorProfiles := [] }, foreignWorld) :=
  ⟨by decide, by decide,
    foreign_profile_refused envOk "site-profile" "# written by the site administrator\n"
      { AppArmorProfiles := [] } foreignWorld (by decide) (by decide)⟩

/-- Claim C3, evaluated where it fails: `site-profile` exists on disk without the marker
`KubeArmor`, the compiler returns a text with `ok = true`, and `UpdateAppArmorProfile` replaces
the content of the file by that text; nothing in it looks at the existing file. -/
theorem update_overwrites_foreign_profile :
    lookup "site-profile" foreignWorld.files =
      some (Node.file "# written by the site administrator\n") ∧
    stringsContains "# written by the site administrator\n" "KubeArmor" = false ∧
    lookup "site-profile"
      (UpdateAppArmorProfile envOk genAlways sampleGroup "site-profile" [()] foreignWorld).files =
      some (Node.file "## == Managed by KubeArmor == ##\n") ∧
    lookup "site-profile"
      (UpdateAppArmorProfile envOk genAlways sampleGroup "site-profile" [()] foreignWorld).kernel =
      some "## == Managed by KubeArmor == ##\n" := by
  decide

set_option maxRecDepth 1000000 in
/-- Claim C4, evaluated where it fails: after two successful `RegisterAppArmorProfile("p1")`
calls the registry holds `p1` with reference count 2; `DestroyAppArmorEnforcer` then calls
`UnregisterAppArmorProfile("p1")` once, which only counts down: `p1` stays in the registry with
count 1, its file stays on disk and its profile stays loaded. -/
theorem destroy_leaves_shared_profile :
    (runCalls envOk "p1" [Call.register, Call.register]
      ({ AppArmorProfiles := [] }, emptyWorld)).1.AppArmorProfiles = [("p1", 2)] ∧
    (DestroyAppArmorEnforcer envOk
      (runCalls envOk "p1" [Call.register, Call.register]
        ({ AppArmorProfiles := [] }, emptyWorld)).1
      (runCalls envOk "p1" [Call.register, Call.register]
        ({ AppArmorProfiles := [] }, emptyWorld)).2).1.AppArmorProfiles = [("p1", 1)] ∧
    lookup "p1" (DestroyAppArmorEnforcer envOk
      (runCalls envOk "p1" [Call.register, Call.register]
        ({ AppArmorProfiles := [] }, emptyWorld)).1
      (runCalls envOk "p1" [Call.register, Call.register]
        ({ AppArmorProfiles := [] }, emptyWorld)).2).2.files =
      some (Node.file (newProfile "p1")) ∧
    lookup "p1" (DestroyAppArmorEnforcer envOk
      (runCalls envOk "p1" [Call.register, Call.register]
        ({ AppArmorProfiles := [] }, emptyWorld)).1
      (runCalls envOk "p1" [Call.register, Call.register]
        ({ AppArmorProfiles := [] }, emptyWorld)).2).2.kernel =
      some (newProfile "p1") := by
  decide

/-- Claim C5: whenever `NewAppArmorEnforcer` returns an enforcer, its registry is empty; no
regular file whose content contains `KubeArmor` is left in the directory; every regular file
that contained `KubeArmor` is gone, and the calls made on the way contain a successful
`apparmor_parser -R` on it followed later by its successful removal; and every regular file
without `KubeArmor` is still there with the same content. -/
theorem startup_sweep (env : Env) (w w' : World) (ae : AppArmorEnforcer)
    (h : NewAppArmorEnforcer env w = (some ae, w')) :
    ae.AppArmorProfiles = [] ∧
    (∀ name c, lookup name w'.files = some (Node.file c) →
      stringsContains c "KubeArmor" = false) ∧
    (∀ name c, lookup name w.files = some (Node.file c) →
      stringsContains c "KubeArmor" = true →
      lookup name w'.files = none ∧
      ∃ t1 t2 t3, w'.trace =
        w.trace ++ t1 ++ [Event.unload name true] ++ t2 ++ [Event.remove name true] ++ t3) ∧
    (∀ name c, lookup name w.files = some (Node.file c) →
      stringsContains c "KubeArmor" = false →
      lookup name w'.files = some (Node.file c)) := by
  unfold NewAppArmorEnforcer at h
  simp only at h
  by_cases hrd : env.readDirOk = true
  swap
  · simp [hrd] at h
  simp only [hrd, Bool.not_true, Bool.false_eq_true, if_false] at h
  split at h
  · simp at h
  · rename_i w1 hs
    simp only [Prod.mk.injEq, Option.some.injEq] at h
    obtain ⟨hae, hw⟩ := h
    subst hae hw
    obtain ⟨_, h2, h3⟩ := sweepLoop_spec env _ _ _ hs
    have hfiles : (if (!env.isK8sLocal) = true then
        ({ w with trace := w.trace ++ [Event.mount] } : World) else w).files = w.files := by
      split <;> rfl
    have htrace : ∃ t0, (if (!env.isK8sLocal) = true then
        ({ w with trace := w.trace ++ [Event.mount] } : World) else w).trace = w.trace ++ t0 := by
      split
      · exact ⟨[Event.mount], rfl⟩
      · exact ⟨[], by simp⟩
    rw [hfiles] at h2 h3
    obtain ⟨t0, ht0⟩ := htrace
    refine ⟨rfl, ?_, ?_, ?_⟩
    · intro name c hc
      rcases h2 name with h2n | ⟨c', _, _, hg, _⟩
      · rw [h2n] at hc
        exact h3 name c (mem_entries_of_lookup name _ _ hc) c (h2n ▸ hc)
      · rw [hg] at hc
        exact absurd hc (by simp)
    · intro name c hc hm
      rcases h2 name with h2n | ⟨c', hc', _, hg, t1, t2, t3, htr⟩
      · have hc2 : lookup name w1.files = some (Node.file c) := h2n ▸ hc
        have := h3 name c (mem_entries_of_lookup name _ _ hc) c hc2
        rw [hm] at this
        exact absurd this (by simp)
      · exact ⟨hg, t0 ++ t1, t2, t3, by rw [htr, ht0]; simp⟩
    · intro name c hc hm
      rcases h2 name with h2n | ⟨c', hc', hcm, _⟩
      · rw [h2n, hc]
      · rw [hc] at hc'
        simp only [Option.some.injEq, Node.file.injEq] at hc'
        subst hc'
        rw [hm] at hcm
        exact absurd hcm (by simp)


/-- Witness for C5: the sweep of `staleWorld` removes `stale` and keeps `site-profile`. -/
theorem startup_sweep_witness :
    NewAppArmorEnforcer envOk staleWorld =
      (some { AppArmorProfiles := [] },
        { files := [("site-profile", Node.file "# written by the site administrator\n"),
                    ("cache", Node.dir)],
          kernel := [],
          trace := [Event.unload "stale" true, Event.remove "stale" true] }) ∧
    (∀ name c,
      lookup name [("site-profile", Node.file "# written by the site administrator\n"),
                   ("cache", Node.dir)] = some (Node.file c) →
      stringsContains c "KubeArmor" = false) :=
  ⟨by decide,
    (startup_sweep envOk staleWorld
      { files := [("site-profile", Node.file "# written by the site administrator\n"),
                  ("cache", Node.dir)],
        kernel := [],
        trace := [Event.unload "stale" true, Event.remove "stale" true] }
      { AppArmorProfiles := [] } (by decide)).2.1⟩

/-- Claim C6: when `GenerateAppArmorProfile` returns `ok = false`, `UpdateAppArmorProfile`
changes nothing: the disk, the kernel store and the record of external calls (no create, no
write, no loader run) are as before the call. -/
theorem update_noop_on_compile_failure {Policy : Type} (env : Env)
    (gen : World → String → List Policy → Generated) (conGroup : ContainerGroup Policy)
    (appArmorProfile : String) (securityPolicies : List Policy) (w : World)
    (hFail : (gen w appArmorProfile securityPolicies).2.2 = false) :
    UpdateAppArmorProfile env gen conGroup appArmorProfile securityPolicies w = w := by
  unfold UpdateAppArmorProfile
  split
  · rename_i h
    rw [h] at hFail
    simp at hFail
  · rfl


/-- Witness for C6: a failing compiler on the administrator's directory. -/
theorem update_noop_on_compile_failure_witness :
    (genNever foreignWorld "site-profile" [()]).2.2 = false ∧
    UpdateAppArmorProfile envOk genNever sampleGroup "site-profile" [()] foreignWorld =
      foreignWorld :=
  ⟨rfl, update_noop_on_compile_failure envOk genNever sampleGroup "site-profile" [()]
    foreignWorld rfl⟩

/-- Claim C7: when `apparmor_parser -r -W` on the file of `p` fails,
`RegisterAppArmorProfile(p)` returns false and the registry is as before; and whenever the
registry differs after the call, the loader succeeded, the call returned true and the
successful loader run is the last external call of the call. -/
theorem register_counts_only_loaded (env : Env) (profileName : String) (ae : AppArmorEnforcer)
    (w : World) :
    (env.reloadOk profileName = false →
      (RegisterAppArmorProfile env profileName ae w).1 = false ∧
      (RegisterAppArmorProfile env profileName ae w).2.1 = ae) ∧
    ((RegisterAppArmorProfile env profileName ae w).2.1 ≠ ae →
      env.reloadOk profileName = true ∧
      (RegisterAppArmorProfile env profileName ae w).1 = true ∧
      ∃ t, (RegisterAppArmorProfile env profileName ae w).2.2.trace =
        w.trace ++ t ++ [Event.reload profileName true]) := by
  rcases register_shape env profileName ae w with h | ⟨w1, t, ht, h⟩
  · exact ⟨fun _ => h, fun hne => absurd h.2 hne⟩
  · rw [h]
    constructor
    · intro hf
      rw [registerLoad_failure env profileName ae w1 hf]
      exact ⟨rfl, rfl⟩
    · intro hne
      cases hr : env.reloadOk profileName with
      | false =>
        rw [registerLoad_failure env profileName ae w1 hr] at hne
        exact absurd rfl hne
      | true =>
        obtain ⟨h1, _, _, h4⟩ := registerLoad_success env profileName ae w1 hr
        exact ⟨rfl, h1, t, by rw [h4, ht]⟩

/-- Witness for C7: registering `p1` while the loader fails leaves the registry empty. -/
theorem register_counts_only_loaded_witness :
    envLoaderFails.reloadOk "p1" = false ∧
    (RegisterAppArmorProfile envLoaderFails "p1" { AppArmorProfiles := [] } emptyWorld).1 =
      false ∧
    (RegisterAppArmorProfile envLoaderFails "p1" { AppArmorProfiles := [] } emptyWorld).2.1 =
      { AppArmorProfiles := [] } :=
  ⟨rfl, (register_counts_only_loaded envLoaderFails "p1" { AppArmorProfiles := [] }
    emptyWorld).1 rfl⟩

/-- Claim C8: for a name `p` without registry entry, whatever is on disk under that name,
`UnregisterAppArmorProfile(p)` returns false and leaves the registry, the disk, the kernel store
and the record of external calls (so no loader run) as they were. -/
theorem unregister_unknown_profile (env : Env) (profileName : String) (ae : AppArmorEnforcer)
    (w : World) (h : lookup profileName ae.AppArmorProfiles = none) :
    UnregisterAppArmorProfile env profileName ae w = (false, ae, w) := by
  unfold UnregisterAppArmorProfile unregisterCount
  rw [h]
  split
  · split
    · rfl
    · split <;> rfl
  · rfl

/-- Witness for C8: `stale` is on disk with the marker but not in the registry. -/
theorem unregister_unknown_profile_witness :
    lookup "stale" ([("p1", 1)] : List (String × Int)) = none ∧
    UnregisterAppArmorProfile envOk "stale" { AppArmorProfiles := [("p1", 1)] } staleWorld =
      (false, { AppArmorProfiles := [("p1", 1)] }, staleWorld) :=
  ⟨by decide, unregister_unknown_profile envOk "stale" { AppArmorProfiles := [("p1", 1)] }
    staleWorld (by decide)⟩

/-- Claim C9: for every group, whatever its container list and its container-to-profile
map, the names for which `UpdateSecurityPolicies` calls `UpdateAppArmorProfile` are the names
that the map `conGroup.AppArmorProfiles` binds to containers of the list (a container missing
from the map gives none), without `docker-default`, `unconfined` and the empty string, each
once, in order of first occurrence in the container list; and the second loop calls
`UpdateAppArmorProfile` once per such name, in that order, with the group and its
`SecurityPolicies`. -/
theorem update_policies_targets {Policy : Type} (conGroup : ContainerGroup Policy) :
    selectProfiles conGroup = assignedProfiles conGroup ∧
    (selectProfiles conGroup).Nodup ∧
    "docker-default" ∉ selectProfiles conGroup ∧
    "unconfined" ∉ selectProfiles conGroup ∧
    "" ∉ selectProfiles conGroup ∧
    (∀ x, x ∈ selectProfiles conGroup ↔
      (∃ c, c ∈ conGroup.Containers ∧ List.lookup c conGroup.AppArmorProfiles = some x) ∧
        x ≠ "docker-default" ∧ x ≠ "unconfined" ∧ x ≠ "") ∧
    ((conGroup.AppArmorProfiles.map Prod.fst).Nodup →
      ∀ x, x ∈ selectProfiles conGroup ↔
        (∃ c, c ∈ conGroup.Containers ∧ (c, x) ∈ conGroup.AppArmorProfiles) ∧
          x ≠ "docker-default" ∧ x ≠ "unconfined" ∧ x ≠ "") ∧
    (∀ (σ : Type) (update : ContainerGroup Policy → String → List Policy → σ → σ) (s : σ),
      UpdateSecurityPoliciesWith update conGroup s =
        (assignedProfiles conGroup).foldl
          (fun st p => update conGroup p conGroup.SecurityPolicies st) s) ∧
    UpdateSecurityPoliciesWith (fun g p pol calls => calls ++ [(g, p, pol)]) conGroup [] =
      (assignedProfiles conGroup).map (fun p => (conGroup, p, conGroup.SecurityPolicies)) ∧
    (∀ (env : Env) (gen : World → String → List Policy → Generated) (w : World),
      UpdateSecurityPolicies env gen conGroup w =
        (assignedProfiles conGroup).foldl
          (fun st p => UpdateAppArmorProfile env gen conGroup p conGroup.SecurityPolicies st)
          w) := by
  have hmem : ∀ x, x ∈ assignedProfiles conGroup ↔
      (∃ c, c ∈ conGroup.Containers ∧ List.lookup c conGroup.AppArmorProfiles = some x) ∧
        x ≠ "docker-default" ∧ x ≠ "unconfined" ∧ x ≠ "" := by
    intro x
    unfold assignedProfiles
    rw [mem_firstOccurrences, List.mem_filterMap]
    have hsent : isSentinel x = false ↔ x ≠ "docker-default" ∧ x ≠ "unconfined" ∧ x ≠ "" := by
      simp only [isSentinel, Bool.or_eq_false_iff, decide_eq_false_iff_not, and_assoc]
    constructor
    · rintro ⟨c, hc, hx⟩
      cases hl : List.lookup c conGroup.AppArmorProfiles with
      | none => rw [hl] at hx; exact absurd hx (by simp)
      | some y =>
        rw [hl] at hx
        by_cases hs : isSentinel y = true
        · simp [hs] at hx
        · simp only [hs, if_false, Bool.false_eq_true, Option.some.injEq] at hx
          subst hx
          exact ⟨⟨c, hc, hl⟩, hsent.1 (by simpa using hs)⟩
    · rintro ⟨⟨c, hc, hl⟩, hx⟩
      refine ⟨c, hc, ?_⟩
      rw [hl]
      simp [hsent.2 hx]
  rw [selectProfiles_eq]
  refine ⟨rfl, nodup_firstOccurrences _, ?_, ?_, ?_, hmem, ?_, ?_, ?_, ?_⟩
  · exact fun h => ((hmem _).1 h).2.1 rfl
  · exact fun h => ((hmem _).1 h).2.2.1 rfl
  · exact fun h => ((hmem _).1 h).2.2.2 rfl
  · intro hnd x
    rw [hmem]
    constructor
    · rintro ⟨⟨c, hc, hl⟩, hx⟩
      exact ⟨⟨c, hc, (list_lookup_iff_mem _ c x hnd).1 hl⟩, hx⟩
    · rintro ⟨⟨c, hc, hl⟩, hx⟩
      exact ⟨⟨c, hc, (list_lookup_iff_mem _ c x hnd).2 hl⟩, hx⟩
  · intro σ update s
    unfold UpdateSecurityPoliciesWith
    rw [selectProfiles_eq]
  · unfold UpdateSecurityPoliciesWith
    rw [selectProfiles_eq]
    have := foldl_record (fun p => (conGroup, p, conGroup.SecurityPolicies))
      (assignedProfiles conGroup) []
    simpa using this
  · intro env gen w
    unfold UpdateSecurityPolicies UpdateSecurityPoliciesWith
    rw [selectProfiles_eq]

/-- Witness for C9: in `mixedGroup` the map has one binding per container; the names updated
are `web` and `db`, each once and in that order, with the policies of the group, and `web` is
selected because the map binds it to a container of the list. -/
theorem update_policies_targets_witness :
    (mixedGroup.AppArmorProfiles.map Prod.fst).Nodup ∧
    selectProfiles mixedGroup = ["web", "db"] ∧
    UpdateSecurityPoliciesWith (fun _ p pol calls => calls ++ [(p, pol)]) mixedGroup [] =
      [("web", [()]), ("db", [()])] ∧
    ("web" ∈ selectProfiles mixedGroup ↔
      (∃ c, c ∈ mixedGroup.Containers ∧ (c, "web") ∈ mixedGroup.AppArmorProfiles) ∧
        "web" ≠ "docker-default" ∧ "web" ≠ "unconfined" ∧ "web" ≠ "") :=
  ⟨by decide,
    (update_policies_targets mixedGroup).1.trans (by decide),
    ((update_policies_targets mixedGroup).2.2.2.2.2.2.2.1 (List (String × List Unit))
      (fun _ p pol calls => calls ++ [(p, pol)]) []).trans (by decide),
    (update_policies_targets mixedGroup).2.2.2.2.2.2.1 (by decide) "web"⟩

set_option maxRecDepth 1000000 in
/-- Claim C10: for every profile name, the text that `RegisterAppArmorProfile` writes for a
name without file is the template with the placeholder `apparmor-default` (which occurs once,
between `templateHead` and `templateTail`) replaced by the name; that text begins with the line
`## == Managed by KubeArmor == ##`, contains `KubeArmor`, and is the content of the file once
create and write have succeeded, so that the ownership check finds the marker in it. -/
theorem new_profile_text (profileName : String) :
    newProfile profileName = templateHead ++ profileName ++ templateTail ∧
    apparmorDefault = templateHead ++ "apparmor-default" ++ templateTail ∧
    countStarts apparmorDefault.data "apparmor-default".data = 1 ∧
    stringsContains templateHead "apparmor-default" = false ∧
    stringsContains templateTail "apparmor-default" = false ∧
    (∃ rest, newProfile profileName = "## == Managed by KubeArmor == ##\n" ++ rest) ∧
    stringsContains (newProfile profileName) "KubeArmor" = true ∧
    (∀ (env : Env) (ae : AppArmorEnforcer) (w : World),
      osStat w profileName = false → env.createOk profileName = true →
      env.writeOk profileName = true →
      lookup profileName (RegisterAppArmorProfile env profileName ae w).2.2.files =
        some (Node.file (newProfile profileName))) := by
  refine ⟨newProfile_eq profileName, apparmorDefault_split, by decide, by decide, by decide, ?_,
    newProfile_contains_marker profileName, ?_⟩
  · refine ⟨"\n#include <tunables/global>\n\nprofile " ++ profileName ++ templateTail, ?_⟩
    rw [newProfile_eq]
    apply String.ext
    simp only [String.data_append, List.append_assoc]
    rfl
  · intro env ae w hStat hCreate hWrite
    unfold RegisterAppArmorProfile osCreate fileWriteString
    simp only [hStat, hCreate, hWrite, if_true, Bool.false_eq_true, if_false]
    cases hr : env.reloadOk profileName
    · rw [registerLoad_failure env profileName ae _ hr]
      simp [lookup_store]
    · rw [(registerLoad_success env profileName ae _ hr).2.2.1]
      simp [lookup_store]

/-- Witness for C10: the file created for `p1` holds the template text for `p1`. -/
theorem new_profile_text_witness :
    osStat emptyWorld "p1" = false ∧ envOk.createOk "p1" = true ∧ envOk.writeOk "p1" = true ∧
    lookup "p1"
      (RegisterAppArmorProfile envOk "p1" { AppArmorProfiles := [] } emptyWorld).2.2.files =
      some (Node.file (newProfile "p1")) :=
  ⟨rfl, rfl, rfl,
    (new_profile_text "p1").2.2.2.2.2.2.2 envOk { AppArmorProfiles := [] } emptyWorld rfl rfl rfl⟩

end KubeArmor
